import Mathlib

/-!
Shallow embedding of the `smart_uuid` crate (crates `smart_uuid` and
`smart_uuid_derive`).

A 128-bit UUID is modelled as its 16 bytes, a function `Fin 16 → Nat`;
`u8` values are `Nat`s, with masks (`% 16`, `% 64`, `% 256`) made explicit
where the machine width matters.  A category set derived by the
`#[derive(UuidType)]` macro with `n` declared unit cases is modelled as
`Fin n`: the macro assigns the `i`-th case the discriminant `i` and the
inverse returns `Some(case_i)` exactly for bytes `i < n`
(`src/smart_uuid_derive/src/lib.rs`, `impl_uuid_type`).  Per-case prefixes
are an arbitrary function `pf : Fin n → String`, and the runtime type name
`std::any::type_name::<T>()` an arbitrary string parameter.

The external `uuid` crate and `serde` framework are not part of this
repository; the operations the core consumes from them are modelled from
the spec (sections 4.3, 4.4 and 6) and are marked as such below.
-/

/-- A 128-bit UUID as its 16 bytes (`uuid::Uuid`, viewed through
`as_bytes`/`from_bytes`). -/
abbrev UuidBytes := Fin 16 → Nat

/-- `discriminant` as generated by the derive macro
(`smart_uuid_derive/src/lib.rs`): the `i`-th declared case returns `i`. -/
def UuidType.discriminant (n : Nat) (t : Fin n) : Nat := t.val

/-- `from_discriminant` as generated by the derive macro: the match arm
`i => Some(case_i)` for each `i < n`, and the catch-all `_ => None`. -/
def UuidType.from_discriminant (n : Nat) (b : Nat) : Option (Fin n) :=
  if h : b < n then some ⟨b, h⟩ else none

/-- Modelled from the spec: the external UUID library operation
`Uuid::new_v8` (spec section 6: construct a version-8 UUID from a 16-byte
array, setting version nibble `0x8` in byte 6 and variant bits `10` in
byte 8).  On bytes, `(b AND 0x0F) OR 0x80 = b % 16 + 128` and
`(b AND 0x3F) OR 0x80 = b % 64 + 128`; all other bytes pass through. -/
def Uuid.new_v8 (bytes : UuidBytes) : UuidBytes := fun i =>
  if i.val = 6 then bytes i % 16 + 128
  else if i.val = 8 then bytes i % 64 + 128
  else bytes i

/-- The error enum `TypedUuidError` (`smart_uuid/src/error.rs`). -/
inductive TypedUuidError where
  | InvalidDiscriminant (found : Nat) (type_name : String)
  | ParseError (msg : String)
  | UnknownPrefix (prefixStr : String) (type_name : String)
  | InvalidFormat (msg : String)
deriving DecidableEq

/-- `TypedUuid<T>` (`smart_uuid/src/typed_uuid.rs`): a UUID plus a phantom
category parameter; only the UUID is runtime data. -/
structure TypedUuid (n : Nat) where
  inner : UuidBytes

/-- `TypedUuid::as_bytes`. -/
def TypedUuid.as_bytes {n : Nat} (x : TypedUuid n) : UuidBytes := x.inner

/-- `TypedUuid::new` (`typed_uuid.rs` lines 21–40): fill 16 random bytes,
overwrite byte 0 with the variant's discriminant, then apply the version-8
normalization.  The random draw is the explicit argument `randomBytes`. -/
def TypedUuid.new (n : Nat) (t : Fin n) (randomBytes : UuidBytes) : TypedUuid n :=
  ⟨Uuid.new_v8 (Function.update randomBytes 0 (UuidType.discriminant n t))⟩

/-- `TypedUuid::from_uuid` (`typed_uuid.rs` lines 43–57): validate that
byte 0 maps to a known variant, keep the bytes unchanged. -/
def TypedUuid.from_uuid (n : Nat) (typeName : String) (u : UuidBytes) :
    Except TypedUuidError (TypedUuid n) :=
  match UuidType.from_discriminant n (u 0) with
  | none => .error (.InvalidDiscriminant (u 0) typeName)
  | some _ => .ok ⟨u⟩

/-- `TypedUuid::variant_type` (`typed_uuid.rs` lines 60–67): read byte 0
and map through `from_discriminant`.  The source `expect`s the result
(panicking on `None`); the model keeps the `Option`, so the panic branch
is exactly the `none` case. -/
def TypedUuid.variant_type {n : Nat} (x : TypedUuid n) : Option (Fin n) :=
  UuidType.from_discriminant n (x.inner 0)

/-- C1: For every category `t` of a category set with `n` cases,
`TypedUuid::new(t)` yields a value whose byte 0 equals `discriminant(t)`,
whose `variant_type()` returns `t`, whose version nibble (high nibble of
byte 6) equals `0x8`, and whose top two bits of byte 8 equal binary `10`,
regardless of the random bytes drawn. -/
theorem typed_uuid_new_spec (n : Nat) (t : Fin n) (r : UuidBytes) :
    (TypedUuid.new n t r).as_bytes 0 = UuidType.discriminant n t ∧
    (TypedUuid.new n t r).variant_type = some t ∧
    (TypedUuid.new n t r).as_bytes 6 / 16 = 8 ∧
    (TypedUuid.new n t r).as_bytes 8 / 64 = 2 := by
  have h6 : ((6 : Fin 16) : Nat) = 6 := rfl
  have h8 : ((8 : Fin 16) : Nat) = 8 := rfl
  refine ⟨?_, ?_, ?_, ?_⟩ <;>
    simp [TypedUuid.new, TypedUuid.as_bytes, TypedUuid.variant_type, Uuid.new_v8,
      UuidType.discriminant, UuidType.from_discriminant, Function.update, h6, h8] <;>
    omega

/-- C3: for a derived category set with `n ≤ 256` cases, the `i`-th case
has discriminant `i`, `from_discriminant` inverts `discriminant`, and
every byte outside the image (`b ≥ n`) maps to `None`. -/
theorem derive_discriminant_spec (n : Nat) (hn : n ≤ 256) (t : Fin n) (b : Nat)
    (hb : n ≤ b) :
    UuidType.discriminant n t = t.val ∧
    UuidType.from_discriminant n (UuidType.discriminant n t) = some t ∧
    UuidType.from_discriminant n b = none := by
  refine ⟨rfl, ?_, ?_⟩
  · simp [UuidType.from_discriminant, UuidType.discriminant]
  · simp [UuidType.from_discriminant]
    omega

/-- Witness for C3 at the three-case category set of the test suite
(`Retail`, `Business`, `Organization`) and the out-of-image byte 255. -/
theorem derive_discriminant_spec_witness :
    UuidType.discriminant 3 (2 : Fin 3) = 2 ∧
    UuidType.from_discriminant 3 (UuidType.discriminant 3 (2 : Fin 3)) = some 2 ∧
    UuidType.from_discriminant 3 255 = none :=
  derive_discriminant_spec 3 (by decide) 2 255 (by decide)

/-- C2: `from_uuid` succeeds, preserving all 16 bytes, exactly when byte 0
is a recognized discriminant (no version/variant check), and otherwise
fails with `InvalidDiscriminant` carrying the offending byte and the type
name. -/
theorem from_uuid_spec (n : Nat) (tn : String) (u : UuidBytes) :
    (TypedUuid.from_uuid n tn u = .ok ⟨u⟩ ↔
      (UuidType.from_discriminant n (u 0)).isSome) ∧
    (UuidType.from_discriminant n (u 0) = none →
      TypedUuid.from_uuid n tn u = .error (.InvalidDiscriminant (u 0) tn)) := by
  constructor
  · constructor
    · intro h
      unfold TypedUuid.from_uuid at h
      cases hd : UuidType.from_discriminant n (u 0) with
      | none => rw [hd] at h; exact absurd h (by simp)
      | some v => simp [hd]
    · intro h
      rw [Option.isSome_iff_exists] at h
      obtain ⟨v, hv⟩ := h
      unfold TypedUuid.from_uuid
      rw [hv]
  · intro h
    unfold TypedUuid.from_uuid
    rw [h]

/-- Witness for C2: a byte-0 value of 5 is rejected by a one-case category
set, and a byte-0 value of 0 is accepted. -/
theorem from_uuid_spec_witness :
    TypedUuid.from_uuid 1 "T" (fun _ => 5) =
      .error (.InvalidDiscriminant 5 "T") ∧
    TypedUuid.from_uuid 1 "T" (fun _ => 0) = .ok ⟨fun _ => 0⟩ :=
  ⟨(from_uuid_spec 1 "T" (fun _ => 5)).2 (by decide),
   (from_uuid_spec 1 "T" (fun _ => 0)).1.mpr (by decide)⟩

/-- Modelled from the spec: one lowercase hex digit of the external UUID
renderer (`0`–`9`, `a`–`f`). -/
def hexChar (k : Nat) : Char :=
  if k < 10 then Char.ofNat (48 + k) else Char.ofNat (87 + k)

/-- The two hex digits of one byte, high nibble first. -/
def hexPair (b : Nat) : List Char := [hexChar (b / 16 % 16), hexChar (b % 16)]

/-- Hex rendering of a list of bytes. -/
def hexList (l : List Nat) : List Char := (l.map hexPair).flatten

/-- Modelled from the spec: the external UUID library's canonical
36-character hyphenated lowercase rendering (spec section 6; byte groups
4-2-2-2-6 separated by hyphens). -/
def uuidToString (u : UuidBytes) : String :=
  String.mk (hexList [u 0, u 1, u 2, u 3] ++ '-' ::
    (hexList [u 4, u 5] ++ '-' ::
      (hexList [u 6, u 7] ++ '-' ::
        (hexList [u 8, u 9] ++ '-' ::
          hexList [u 10, u 11, u 12, u 13, u 14, u 15]))))

/-- Numeric value of one hex digit; both letter cases are accepted. -/
def hexVal (c : Char) : Option Nat :=
  if '0' ≤ c ∧ c ≤ '9' then some (c.toNat - 48)
  else if 'a' ≤ c ∧ c ≤ 'f' then some (c.toNat - 87)
  else if 'A' ≤ c ∧ c ≤ 'F' then some (c.toNat - 55)
  else none

/-- Read one byte, i.e. two hex digits. -/
def readHexByte : List Char → Option (Nat × List Char)
  | c1 :: c2 :: rest =>
    match hexVal c1, hexVal c2 with
    | some h1, some h2 => some (16 * h1 + h2, rest)
    | _, _ => none
  | _ => none

/-- Read `k` consecutive bytes. -/
def readHexBytes : Nat → List Char → Option (List Nat × List Char)
  | 0, cs => some ([], cs)
  | k + 1, cs =>
    match readHexByte cs with
    | some (b, cs1) =>
      match readHexBytes k cs1 with
      | some (bs, cs2) => some (b :: bs, cs2)
      | none => none
    | none => none

/-- The canonical `8-4-4-4-12` hyphenated shape over a character list. -/
def parseUuidChars (cs : List Char) : Option (List Nat) :=
  match readHexBytes 4 cs with
  | some (g1, '-' :: r1) =>
    match readHexBytes 2 r1 with
    | some (g2, '-' :: r2) =>
      match readHexBytes 2 r2 with
      | some (g3, '-' :: r3) =>
        match readHexBytes 2 r3 with
        | some (g4, '-' :: r4) =>
          match readHexBytes 6 r4 with
          | some (g5, []) => some (g1 ++ (g2 ++ (g3 ++ (g4 ++ g5))))
          | _ => none
        | _ => none
      | _ => none
    | _ => none
  | _ => none

/-- Sixteen parsed bytes, as a `UuidBytes`. -/
def bytesToFun (l : List Nat) : UuidBytes := fun i => l.getD i 0

/-- Modelled from the spec: the external UUID library's parser of the
canonical 36-character hyphenated form (spec section 6). -/
def Uuid.parse_str (s : String) : Option UuidBytes :=
  (parseUuidChars s.data).map bytesToFun

/-- `Display for TypedUuid` (`typed_uuid.rs` lines 94–98): the underlying
UUID's canonical hyphenated rendering. -/
def TypedUuid.render {n : Nat} (x : TypedUuid n) : String := uuidToString x.inner

/-- `FromStr for TypedUuid` (`typed_uuid.rs` lines 100–108): parse the
36-character form (failures become `ParseError`), then validate through
`from_uuid`. -/
def TypedUuid.from_str (n : Nat) (typeName : String) (s : String) :
    Except TypedUuidError (TypedUuid n) :=
  match Uuid.parse_str s with
  | none => .error (.ParseError "failed to parse UUID")
  | some u => TypedUuid.from_uuid n typeName u

theorem hexVal_hexChar : ∀ k, k < 16 → hexVal (hexChar k) = some k := by decide

theorem hexList_cons (b : Nat) (bs : List Nat) :
    hexList (b :: bs) = hexPair b ++ hexList bs := by
  simp [hexList]

theorem readHexByte_hexPair (b : Nat) (rest : List Char) :
    readHexByte (hexPair b ++ rest) = some (b % 256, rest) := by
  have h1 := hexVal_hexChar (b / 16 % 16) (by omega)
  have h2 := hexVal_hexChar (b % 16) (by omega)
  simp [hexPair, readHexByte, h1, h2]
  omega

theorem readHexBytes_hexList (l : List Nat) (hl : ∀ b ∈ l, b < 256)
    (rest : List Char) :
    readHexBytes l.length (hexList l ++ rest) = some (l, rest) := by
  induction l with
  | nil => simp [hexList, readHexBytes]
  | cons b bs ih =>
    have hb : b < 256 := hl b (List.mem_cons_self b bs)
    have ihs := ih (fun x hx => hl x (List.mem_cons_of_mem b hx))
    rw [List.length_cons, hexList_cons, List.append_assoc]
    simp [readHexBytes, readHexByte_hexPair, Nat.mod_eq_of_lt hb, ihs]

theorem parse_uuidToString (u : UuidBytes) (hu : ∀ i, u i < 256) :
    Uuid.parse_str (uuidToString u) = some u := by
  have mem : ∀ (l : List Nat), (∀ b ∈ l, ∃ i, b = u i) → ∀ b ∈ l, b < 256 := by
    intro l h b hb
    obtain ⟨i, rfl⟩ := h b hb
    exact hu i
  have r5 : List Char := []
  have e5 := readHexBytes_hexList [u 10, u 11, u 12, u 13, u 14, u 15]
    (by rintro b hb; simp only [List.mem_cons, List.not_mem_nil, or_false] at hb
        rcases hb with rfl | rfl | rfl | rfl | rfl | rfl <;> exact hu _) []
  rw [List.append_nil] at e5
  have e4 := readHexBytes_hexList [u 8, u 9]
    (by rintro b hb; simp only [List.mem_cons, List.not_mem_nil, or_false] at hb
        rcases hb with rfl | rfl <;> exact hu _)
    ('-' :: hexList [u 10, u 11, u 12, u 13, u 14, u 15])
  have e3 := readHexBytes_hexList [u 6, u 7]
    (by rintro b hb; simp only [List.mem_cons, List.not_mem_nil, or_false] at hb
        rcases hb with rfl | rfl <;> exact hu _)
    ('-' :: (hexList [u 8, u 9] ++ '-' ::
      hexList [u 10, u 11, u 12, u 13, u 14, u 15]))
  have e2 := readHexBytes_hexList [u 4, u 5]
    (by rintro b hb; simp only [List.mem_cons, List.not_mem_nil, or_false] at hb
        rcases hb with rfl | rfl <;> exact hu _)
    ('-' :: (hexList [u 6, u 7] ++ '-' :: (hexList [u 8, u 9] ++ '-' ::
      hexList [u 10, u 11, u 12, u 13, u 14, u 15])))
  have e1 := readHexBytes_hexList [u 0, u 1, u 2, u 3]
    (by rintro b hb; simp only [List.mem_cons, List.not_mem_nil, or_false] at hb
        rcases hb with rfl | rfl | rfl | rfl <;> exact hu _)
    ('-' :: (hexList [u 4, u 5] ++ '-' :: (hexList [u 6, u 7] ++ '-' ::
      (hexList [u 8, u 9] ++ '-' ::
        hexList [u 10, u 11, u 12, u 13, u 14, u 15]))))
  simp only [List.length_cons, List.length_nil] at e1 e2 e3 e4 e5
  norm_num at e1 e2 e3 e4 e5
  show (parseUuidChars (uuidToString u).data).map bytesToFun = some u
  have hdata : (uuidToString u).data =
      hexList [u 0, u 1, u 2, u 3] ++ '-' ::
        (hexList [u 4, u 5] ++ '-' ::
          (hexList [u 6, u 7] ++ '-' ::
            (hexList [u 8, u 9] ++ '-' ::
              hexList [u 10, u 11, u 12, u 13, u 14, u 15]))) := rfl
  rw [hdata]
  simp only [parseUuidChars, e1, e2, e3, e4, e5, List.cons_append,
    List.nil_append, Option.map_some']
  congr 1
  funext i
  fin_cases i <;> rfl

/-- One step of `to_snake_case` (`smart_uuid_derive/src/lib.rs` lines
189–212) at index `i`, character `c`: an uppercase letter is lowercased
and preceded by an underscore iff `i > 0` and the previous character is
lowercase or the next character exists and is lowercase; every other
character is emitted verbatim.  (The source indexes `chars[i-1]` directly,
legal because `i > 0` keeps it in bounds; the model reads it through
`[·]?`, which agrees there.) -/
def snakeEmit (chars : List Char) (i : Nat) (c : Char) : List Char :=
  if c.isUpper then
    if 0 < i ∧ ((chars[i - 1]?).any Char.isLower ∨
        (chars[i + 1]?).any Char.isLower) then
      ['_', c.toLower]
    else [c.toLower]
  else [c]

/-- `to_snake_case` (`smart_uuid_derive/src/lib.rs` lines 189–212). -/
def to_snake_case (s : String) : String :=
  String.mk ((s.data.enum.map (fun p => snakeEmit s.data p.1 p.2)).flatten)

/-- C4: the snake-case function walks positions `i = 0 … len-1` and at
each uppercase letter emits an underscore before its lowercase form iff
`i > 0` and (the previous character is lowercase or the next character
exists and is lowercase), emitting all other characters verbatim; in
particular it maps the spec's test-table inputs to their listed
outputs. -/
theorem to_snake_case_spec :
    (∀ s : String, to_snake_case s = String.mk ((s.data.enum.map (fun p =>
      if p.2.isUpper then
        if 0 < p.1 ∧ ((s.data[p.1 - 1]?).any Char.isLower ∨
            (s.data[p.1 + 1]?).any Char.isLower) then
          ['_', p.2.toLower]
        else [p.2.toLower]
      else [p.2])).flatten)) ∧
    to_snake_case "Retail" = "retail" ∧
    to_snake_case "HTTPServer" = "http_server" ∧
    to_snake_case "HTTPSProxy" = "https_proxy" ∧
    to_snake_case "TCPSocket" = "tcp_socket" ∧
    to_snake_case "JSONParser" = "json_parser" ∧
    to_snake_case "TheOnlyOne" = "the_only_one" := by
  refine ⟨fun s => rfl, ?_, ?_, ?_, ?_, ?_, ?_⟩ <;> decide

/-- Character position of the last `'_'`: the model of the source's
`s.rfind('_')` in `UserFriendlyUuid::parse_str` (positions are character
indices, which coincide with the source's byte indices on the ASCII
inputs at issue). -/
def lastUnderscorePos : List Char → Option Nat
  | [] => none
  | c :: rest =>
    match lastUnderscorePos rest with
    | some i => some (i + 1)
    | none => if c = '_' then some 0 else none

theorem lastUnderscorePos_eq_none (cs : List Char) :
    lastUnderscorePos cs = none ↔ '_' ∉ cs := by
  induction cs with
  | nil => simp [lastUnderscorePos]
  | cons c rest ih =>
    unfold lastUnderscorePos
    cases h : lastUnderscorePos rest with
    | some i =>
      have hmem : '_' ∈ rest := by
        by_contra hx
        simp [ih.mpr hx] at h
      simp [List.mem_cons, hmem]
    | none =>
      have hmem : '_' ∉ rest := ih.mp h
      by_cases hc : c = '_' <;> simp [hc, hmem, List.mem_cons, eq_comm]

theorem mem_of_getElem?_eq (l : List Char) (j : Nat) (c : Char)
    (h : l[j]? = some c) : c ∈ l := by
  induction l generalizing j with
  | nil => simp at h
  | cons a t ih =>
    cases j with
    | zero =>
      simp only [List.getElem?_cons_zero, Option.some.injEq] at h
      simp [h]
    | succ j' =>
      simp only [List.getElem?_cons_succ] at h
      exact List.mem_cons_of_mem _ (ih j' h)

theorem lastUnderscorePos_is_last (cs : List Char) (i : Nat)
    (h : lastUnderscorePos cs = some i) :
    cs[i]? = some '_' ∧ ∀ j, i < j → cs[j]? ≠ some '_' := by
  induction cs generalizing i with
  | nil => simp [lastUnderscorePos] at h
  | cons c rest ih =>
    unfold lastUnderscorePos at h
    cases hr : lastUnderscorePos rest with
    | some k =>
      rw [hr] at h
      obtain ⟨h1, h2⟩ := ih k hr
      cases h
      constructor
      · simpa using h1
      · intro j hj
        cases j with
        | zero => omega
        | succ j' =>
          simp only [List.getElem?_cons_succ]
          exact h2 j' (by omega)
    | none =>
      rw [hr] at h
      by_cases hc : c = '_'
      · rw [if_pos hc] at h
        cases h
        have hmem := (lastUnderscorePos_eq_none rest).mp hr
        constructor
        · simp [hc]
        · intro j hj
          cases j with
          | zero => omega
          | succ j' =>
            simp only [List.getElem?_cons_succ]
            intro hcontra
            exact hmem (mem_of_getElem?_eq rest j' '_' hcontra)
      · rw [if_neg hc] at h
        exact Option.noConfusion h

theorem lastUnderscorePos_append_last (a b : List Char) (hb : '_' ∉ b) :
    lastUnderscorePos (a ++ '_' :: b) = some a.length := by
  induction a with
  | nil =>
    simp only [List.nil_append, lastUnderscorePos,
      (lastUnderscorePos_eq_none b).mpr hb, List.length_nil]
    simp
  | cons c a' ih =>
    simp only [List.cons_append, lastUnderscorePos, List.append_eq, ih,
      List.length_cons]

theorem hexChar_ne_underscore : ∀ k, k < 16 → hexChar k ≠ '_' := by decide

theorem underscore_not_mem_hexPair (b : Nat) : '_' ∉ hexPair b := by
  intro h
  simp only [hexPair, List.mem_cons, List.not_mem_nil, or_false] at h
  rcases h with h | h
  · exact hexChar_ne_underscore _ (by omega) h.symm
  · exact hexChar_ne_underscore _ (by omega) h.symm

theorem underscore_not_mem_hexList (l : List Nat) : '_' ∉ hexList l := by
  induction l with
  | nil => simp [hexList]
  | cons b bs ih =>
    rw [hexList_cons]
    intro h
    rcases List.mem_append.mp h with h | h
    · exact underscore_not_mem_hexPair b h
    · exact ih h

theorem underscore_not_mem_uuidToString (u : UuidBytes) :
    '_' ∉ (uuidToString u).data := by
  have hdata : (uuidToString u).data =
      hexList [u 0, u 1, u 2, u 3] ++ '-' ::
        (hexList [u 4, u 5] ++ '-' ::
          (hexList [u 6, u 7] ++ '-' ::
            (hexList [u 8, u 9] ++ '-' ::
              hexList [u 10, u 11, u 12, u 13, u 14, u 15]))) := rfl
  rw [hdata]
  intro h
  simp only [List.mem_append, List.mem_cons] at h
  rcases h with h | h | h | h | h | h | h | h | h <;>
    first
      | exact underscore_not_mem_hexList _ h
      | exact absurd h (by decide)

/-- C7: round-trip of the bare typed textual form: every `TypedUuid`
satisfying the typed-identifier invariant (byte 0 a valid discriminant;
all bytes in `u8` range) parses back from its canonical 36-character
rendering to the same 16 bytes. -/
theorem typed_round_trip (n : Nat) (tn : String) (x : TypedUuid n)
    (hd : x.inner 0 < n) (hb : ∀ i, x.inner i < 256) :
    TypedUuid.from_str n tn (TypedUuid.render x) = .ok x := by
  obtain ⟨ui⟩ := x
  unfold TypedUuid.from_str TypedUuid.render
  rw [parse_uuidToString ui hb]
  simp [TypedUuid.from_uuid, UuidType.from_discriminant, hd]

/-- Witness for C7: the all-zero UUID over a one-case category set. -/
theorem typed_round_trip_witness :
    TypedUuid.from_str 1 "T" (TypedUuid.render (⟨fun _ => 0⟩ : TypedUuid 1)) =
      .ok ⟨fun _ => 0⟩ :=
  typed_round_trip 1 "T" ⟨fun _ => 0⟩ (by decide)
    (by intro i; show (0 : Nat) < 256; decide)

/-- `UserFriendlyUuid<T>` (`smart_uuid/src/user_friendly_uuid.rs`): a
wrapper around the typed identifier; only the rendering differs. -/
structure UserFriendlyUuid (n : Nat) where
  typed_uuid : TypedUuid n

/-- `UserFriendlyUuid::from_typed_uuid` (`user_friendly_uuid.rs` lines
38–43): total and lossless. -/
def UserFriendlyUuid.from_typed_uuid {n : Nat} (typed : TypedUuid n) :
    UserFriendlyUuid n := ⟨typed⟩

/-- `UserFriendlyUuid::parse_str` (`user_friendly_uuid.rs` lines 46–79):
find the last underscore (none → `InvalidFormat`), split there, parse the
UUID part (failure → `ParseError`), validate the discriminant through
`from_uuid` (failure → `InvalidDiscriminant`), then compare the prefix
part against the prefix of the recovered variant (mismatch →
`UnknownPrefix`).  The `variant_type` `none` branch models the panic
inside the source's `variant_type()` call; it is unreachable because
`from_uuid` has just validated byte 0. -/
def UserFriendlyUuid.parse_str (n : Nat) (typeName : String)
    (pf : Fin n → String) (s : String) :
    Except TypedUuidError (UserFriendlyUuid n) :=
  match lastUnderscorePos s.data with
  | none =>
    .error (.InvalidFormat "expected format prefix_uuid, no underscore found")
  | some pos =>
    match Uuid.parse_str (String.mk (s.data.drop (pos + 1))) with
    | none => .error (.ParseError "failed to parse UUID")
    | some u =>
      match TypedUuid.from_uuid n typeName u with
      | .error e => .error e
      | .ok tu =>
        match tu.variant_type with
        | none => .error (.InvalidDiscriminant (tu.inner 0) typeName)
        | some v =>
          if String.mk (s.data.take pos) ≠ pf v then
            .error (.UnknownPrefix (String.mk (s.data.take pos)) typeName)
          else .ok ⟨tu⟩

/-- `Display for UserFriendlyUuid` (`user_friendly_uuid.rs` lines
110–114): `"<prefix>_<uuid-36>"`.  The `none` branch again models the
panic of `variant_type()` on an invalid value. -/
def UserFriendlyUuid.render {n : Nat} (pf : Fin n → String)
    (x : UserFriendlyUuid n) : String :=
  (match x.typed_uuid.variant_type with
   | some v => pf v
   | none => "") ++ "_" ++ uuidToString x.typed_uuid.inner

theorem take_append_cons (a b : List Char) (c : Char) :
    (a ++ c :: b).take a.length = a := by
  simpa using List.take_left a (c :: b)

theorem drop_append_cons (a b : List Char) (c : Char) :
    (a ++ c :: b).drop (a.length + 1) = b := by
  have h1 : a ++ c :: b = (a ++ [c]) ++ b := by simp
  have h2 : (a ++ [c]).length = a.length + 1 := by simp
  rw [h1, ← h2]
  exact List.drop_left _ _

/-- C5: parsing a prefixed-identifier string follows exactly the spec's
sequence: no underscore → `InvalidFormat`; otherwise split at the last
underscore (which the first conjunct certifies is an underscore and the
rightmost one); failures of the 36-character UUID parse surface as
`ParseError`; discriminant failures as `InvalidDiscriminant`; a prefix
part differing from the recovered category's prefix as `UnknownPrefix`
carrying the offending prefix and the type name; otherwise success. -/
theorem parse_str_spec (n : Nat) (tn : String) (pf : Fin n → String)
    (s : String) :
    ('_' ∉ s.data →
      UserFriendlyUuid.parse_str n tn pf s =
        .error (.InvalidFormat
          "expected format prefix_uuid, no underscore found")) ∧
    (∀ pos, lastUnderscorePos s.data = some pos →
      (s.data[pos]? = some '_' ∧ ∀ j, pos < j → s.data[j]? ≠ some '_') ∧
      (Uuid.parse_str (String.mk (s.data.drop (pos + 1))) = none →
        ∃ m, UserFriendlyUuid.parse_str n tn pf s = .error (.ParseError m)) ∧
      (∀ u, Uuid.parse_str (String.mk (s.data.drop (pos + 1))) = some u →
        (UuidType.from_discriminant n (u 0) = none →
          UserFriendlyUuid.parse_str n tn pf s =
            .error (.InvalidDiscriminant (u 0) tn)) ∧
        (∀ v, UuidType.from_discriminant n (u 0) = some v →
          (String.mk (s.data.take pos) ≠ pf v →
            UserFriendlyUuid.parse_str n tn pf s =
              .error (.UnknownPrefix (String.mk (s.data.take pos)) tn)) ∧
          (String.mk (s.data.take pos) = pf v →
            UserFriendlyUuid.parse_str n tn pf s = .ok ⟨⟨u⟩⟩)))) := by
  constructor
  · intro h
    unfold UserFriendlyUuid.parse_str
    rw [(lastUnderscorePos_eq_none s.data).mpr h]
  · intro pos hpos
    refine ⟨lastUnderscorePos_is_last s.data pos hpos, ?_, ?_⟩
    · intro hpu
      unfold UserFriendlyUuid.parse_str
      simp only [hpos, hpu]
      exact ⟨_, rfl⟩
    · intro u hu
      constructor
      · intro hd
        unfold UserFriendlyUuid.parse_str
        simp only [hpos, hu]
        simp [TypedUuid.from_uuid, hd]
      · intro v hv
        constructor
        · intro hne
          unfold UserFriendlyUuid.parse_str
          simp only [hpos, hu]
          simp [TypedUuid.from_uuid, TypedUuid.variant_type, hv, hne]
        · intro heq
          unfold UserFriendlyUuid.parse_str
          simp only [hpos, hu]
          simp [TypedUuid.from_uuid, TypedUuid.variant_type, hv, heq]

/-- Witness for C5 at the spec's scenario S5: `"wrong_<zero uuid>"` over a
one-case category set with prefix `"retail"` is rejected with
`UnknownPrefix` carrying `"wrong"`. -/
theorem parse_str_spec_witness :
    UserFriendlyUuid.parse_str 1 "T" (fun _ => "retail")
        "wrong_00000000-0000-0000-0000-000000000000" =
      .error (.UnknownPrefix "wrong" "T") :=
  ((((parse_str_spec 1 "T" (fun _ => "retail")
        "wrong_00000000-0000-0000-0000-000000000000").2 5
      (by decide)).2.2 (bytesToFun (List.replicate 16 0)) rfl).2 0
    (by decide)).1 (by decide)

/-- C6: round-trip of the prefixed textual form: for every
`UserFriendlyUuid` satisfying the typed-identifier invariant (byte 0 a
valid discriminant, all bytes in `u8` range), rendering
`"<prefix>_<uuid-36>"` and parsing the result back succeeds with the same
16 bytes — for every prefix assignment, including prefixes that
themselves contain underscores. -/
theorem friendly_round_trip (n : Nat) (tn : String) (pf : Fin n → String)
    (x : UserFriendlyUuid n) (hd : x.typed_uuid.inner 0 < n)
    (hb : ∀ i, x.typed_uuid.inner i < 256) :
    UserFriendlyUuid.parse_str n tn pf (UserFriendlyUuid.render pf x) =
      .ok x := by
  obtain ⟨⟨ui⟩⟩ := x
  have hd' : ui 0 < n := hd
  have hv : UuidType.from_discriminant n (ui 0) = some ⟨ui 0, hd'⟩ :=
    dif_pos hd'
  have hmk : ∀ t : String, String.mk t.data = t := fun t => rfl
  have hus : ("_" : String).data = ['_'] := rfl
  have hrender : (UserFriendlyUuid.render pf ⟨⟨ui⟩⟩).data =
      (pf ⟨ui 0, hd'⟩).data ++ '_' :: (uuidToString ui).data := by
    simp only [UserFriendlyUuid.render, TypedUuid.variant_type, hv]
    simp [String.data_append, hus]
  have hnou := underscore_not_mem_uuidToString ui
  have hlast : lastUnderscorePos (UserFriendlyUuid.render pf ⟨⟨ui⟩⟩).data =
      some (pf ⟨ui 0, hd'⟩).data.length := by
    rw [hrender]; exact lastUnderscorePos_append_last _ _ hnou
  have htake : (UserFriendlyUuid.render pf ⟨⟨ui⟩⟩).data.take
      (pf ⟨ui 0, hd'⟩).data.length = (pf ⟨ui 0, hd'⟩).data := by
    rw [hrender]; exact take_append_cons _ _ _
  have hdrop : (UserFriendlyUuid.render pf ⟨⟨ui⟩⟩).data.drop
      ((pf ⟨ui 0, hd'⟩).data.length + 1) = (uuidToString ui).data := by
    rw [hrender]; exact drop_append_cons _ _ _
  unfold UserFriendlyUuid.parse_str
  simp only [hlast, hdrop, htake, hmk, parse_uuidToString ui hb,
    TypedUuid.from_uuid, hv, TypedUuid.variant_type]
  simp

/-- Witness for C6: an all-zero UUID over a one-case category set whose
prefix `"purchase_order"` contains an underscore. -/
theorem friendly_round_trip_witness :
    UserFriendlyUuid.parse_str 1 "T" (fun _ => "purchase_order")
        (UserFriendlyUuid.render (fun _ => "purchase_order")
          (⟨⟨fun _ => 0⟩⟩ : UserFriendlyUuid 1)) = .ok ⟨⟨fun _ => 0⟩⟩ :=
  friendly_round_trip 1 "T" (fun _ => "purchase_order") ⟨⟨fun _ => 0⟩⟩
    (by decide) (by intro i; show (0 : Nat) < 256; decide)

/-- C10: an input whose only underscore is at position 0, followed by a
valid 36-character UUID whose byte 0 is a valid discriminant, does not
fail with `InvalidFormat`: the empty string becomes the prefix part and —
the category's prefix being non-empty — the parse fails with
`UnknownPrefix` carrying the empty prefix and the type name. -/
theorem empty_prefix_parsing (n : Nat) (tn : String) (pf : Fin n → String)
    (rest : List Char) (u : UuidBytes) (hno : '_' ∉ rest)
    (hu : Uuid.parse_str (String.mk rest) = some u) (hd : u 0 < n)
    (hpf : pf ⟨u 0, hd⟩ ≠ "") :
    UserFriendlyUuid.parse_str n tn pf (String.mk ('_' :: rest)) =
      .error (.UnknownPrefix "" tn) := by
  have hv : UuidType.from_discriminant n (u 0) = some ⟨u 0, hd⟩ := dif_pos hd
  have hlast : lastUnderscorePos ('_' :: rest) = some 0 :=
    lastUnderscorePos_append_last [] rest hno
  have hdata : (String.mk ('_' :: rest)).data = '_' :: rest := rfl
  have hemp : String.mk ([] : List Char) = "" := rfl
  unfold UserFriendlyUuid.parse_str
  simp only [hdata, hlast, List.drop_succ_cons, List.drop_zero,
    List.take_zero, hemp, hu, TypedUuid.from_uuid, hv,
    TypedUuid.variant_type]
  simp [Ne.symm hpf]

/-- Witness for C10: `"_<zero uuid>"` over a one-case category set with
prefix `"retail"` fails with `UnknownPrefix` on the empty prefix. -/
theorem empty_prefix_parsing_witness :
    UserFriendlyUuid.parse_str 1 "T" (fun _ => "retail")
        (String.mk ('_' :: ("00000000-0000-0000-0000-000000000000").data)) =
      .error (.UnknownPrefix "" "T") :=
  empty_prefix_parsing 1 "T" (fun _ => "retail")
    ("00000000-0000-0000-0000-000000000000").data
    (bytesToFun (List.replicate 16 0)) (by decide) rfl (by decide)
    (by decide)

/-- Modelled from the spec: the wire value a human-readable serialization
framework exchanges for these types — a single string (spec sections 4.3
and 4.4, serialization contracts). -/
inductive SerdeValue where
  | str (s : String)
deriving DecidableEq

/-- Framework-level deserialization errors: produced by the framework
itself (here, the UUID deserializer), or lifted from a `TypedUuidError`
through `serde::de::Error::custom`. -/
inductive DeserializeError where
  | framework (msg : String)
  | custom (e : TypedUuidError)
deriving DecidableEq

/-- Modelled from the spec: the external UUID library serializes as the
single 36-character string field of its canonical form (spec section
4.3). -/
def Uuid.serialize (u : UuidBytes) : SerdeValue := .str (uuidToString u)

/-- Modelled from the spec: the external UUID library deserializes from
its canonical string form. -/
def Uuid.deserialize (v : SerdeValue) : Option UuidBytes :=
  match v with
  | .str s => Uuid.parse_str s

/-- `Serialize for TypedUuid` (`typed_uuid.rs` lines 116–123): delegate
to the inner UUID's serialization. -/
def TypedUuid.serialize {n : Nat} (x : TypedUuid n) : SerdeValue :=
  Uuid.serialize x.inner

/-- `Deserialize for TypedUuid` (`typed_uuid.rs` lines 125–133): read a
UUID, then re-validate through `from_uuid`, lifting its error via
`serde::de::Error::custom`. -/
def TypedUuid.deserialize (n : Nat) (typeName : String) (v : SerdeValue) :
    Except DeserializeError (TypedUuid n) :=
  match Uuid.deserialize v with
  | none => .error (.framework "invalid UUID")
  | some u =>
    match TypedUuid.from_uuid n typeName u with
    | .error e => .error (.custom e)
    | .ok x => .ok x

/-- `Serialize for UserFriendlyUuid` (`user_friendly_uuid.rs` lines
136–143): `serializer.serialize_str(&self.to_string())`. -/
def UserFriendlyUuid.serialize {n : Nat} (pf : Fin n → String)
    (x : UserFriendlyUuid n) : SerdeValue :=
  .str (UserFriendlyUuid.render pf x)

/-- `Deserialize for UserFriendlyUuid` (`user_friendly_uuid.rs` lines
145–153): read a string, run the textual parser, lift its error. -/
def UserFriendlyUuid.deserialize (n : Nat) (typeName : String)
    (pf : Fin n → String) (v : SerdeValue) :
    Except DeserializeError (UserFriendlyUuid n) :=
  match v with
  | .str s =>
    match UserFriendlyUuid.parse_str n typeName pf s with
    | .error e => .error (.custom e)
    | .ok x => .ok x

theorem hexList_length (l : List Nat) : (hexList l).length = 2 * l.length := by
  induction l with
  | nil => simp [hexList]
  | cons b bs ih =>
    rw [hexList_cons]
    simp [hexPair, ih]
    omega

theorem uuidToString_length (u : UuidBytes) :
    (uuidToString u).data.length = 36 := by
  have hdata : (uuidToString u).data =
      hexList [u 0, u 1, u 2, u 3] ++ '-' ::
        (hexList [u 4, u 5] ++ '-' ::
          (hexList [u 6, u 7] ++ '-' ::
            (hexList [u 8, u 9] ++ '-' ::
              hexList [u 10, u 11, u 12, u 13, u 14, u 15]))) := rfl
  rw [hdata]
  simp [List.length_append, hexList_length]

/-- C8: serialization distinguishes the two value types at the wire
level: a `TypedUuid` serializes exactly as its underlying UUID and
deserializes by reading a UUID and re-validating through `from_uuid`
(validation failures becoming framework-level errors), while a
`UserFriendlyUuid` serializes as the rendered `"<prefix>_<uuid>"` string —
never equal to any bare UUID's serialized form — and deserializes by
running the textual parser and lifting its error. -/
theorem serialization_spec (n : Nat) (tn : String) (pf : Fin n → String) :
    (∀ x : TypedUuid n, TypedUuid.serialize x = Uuid.serialize x.inner) ∧
    (∀ v, TypedUuid.deserialize n tn v =
      match Uuid.deserialize v with
      | none => .error (.framework "invalid UUID")
      | some u =>
        match TypedUuid.from_uuid n tn u with
        | .error e => .error (.custom e)
        | .ok x => .ok x) ∧
    (∀ x : UserFriendlyUuid n, UserFriendlyUuid.serialize pf x =
      .str (UserFriendlyUuid.render pf x)) ∧
    (∀ (x : UserFriendlyUuid n) (u : UuidBytes),
      UserFriendlyUuid.serialize pf x ≠ Uuid.serialize u) ∧
    (∀ s, UserFriendlyUuid.deserialize n tn pf (.str s) =
      match UserFriendlyUuid.parse_str n tn pf s with
      | .error e => .error (.custom e)
      | .ok x => .ok x) := by
  refine ⟨fun x => rfl, fun v => rfl, fun x => rfl, ?_, fun s => rfl⟩
  intro x u h
  have hus : ("_" : String).data = ['_'] := rfl
  injection h with h
  have h1 : (UserFriendlyUuid.render pf x).data.length = 36 := by
    rw [h]; exact uuidToString_length u
  have h2 : (UserFriendlyUuid.render pf x).data.length =
      (match x.typed_uuid.variant_type with
       | some v => pf v
       | none => "").data.length + 37 := by
    unfold UserFriendlyUuid.render
    rw [String.data_append, String.data_append, hus, List.length_append,
      List.length_append, uuidToString_length, List.length_singleton]
  omega

/-- Witness for C8: the serialized forms of a concrete prefixed
identifier and a concrete bare UUID differ. -/
theorem serialization_spec_witness :
    UserFriendlyUuid.serialize (fun _ => "retail")
        (⟨⟨fun _ => 0⟩⟩ : UserFriendlyUuid 1) ≠
      Uuid.serialize (fun _ => 0) :=
  (serialization_spec 1 "T" (fun _ => "retail")).2.2.2.1 ⟨⟨fun _ => 0⟩⟩
    (fun _ => 0)

theorem variant_isSome_of_from_uuid_ok (n : Nat) (tn : String)
    (u : UuidBytes) (x : TypedUuid n)
    (h : TypedUuid.from_uuid n tn u = .ok x) : (x.variant_type).isSome := by
  unfold TypedUuid.from_uuid at h
  cases hd : UuidType.from_discriminant n (u 0) with
  | none => simp [hd] at h
  | some v =>
    simp only [hd] at h
    injection h with h
    subst h
    simp [TypedUuid.variant_type, hd]

/-- C9: every `TypedUuid` reachable through a public constructor — `new`,
`from_uuid`, string parsing, deserialization — has a succeeding
`variant_type()`: the panic branch (the `expect` on `from_discriminant`)
is unreachable, because every constructor establishes that byte 0 lies in
the image of `discriminant` and nothing mutates the bytes afterwards. -/
theorem variant_type_total (n : Nat) (tn : String) :
    (∀ (t : Fin n) (r : UuidBytes),
      ((TypedUuid.new n t r).variant_type).isSome) ∧
    (∀ (u : UuidBytes) (x : TypedUuid n),
      TypedUuid.from_uuid n tn u = .ok x → (x.variant_type).isSome) ∧
    (∀ (s : String) (x : TypedUuid n),
      TypedUuid.from_str n tn s = .ok x → (x.variant_type).isSome) ∧
    (∀ (v : SerdeValue) (x : TypedUuid n),
      TypedUuid.deserialize n tn v = .ok x → (x.variant_type).isSome) := by
  refine ⟨?_, fun u x h => variant_isSome_of_from_uuid_ok n tn u x h, ?_, ?_⟩
  · intro t r
    have h6 : ((6 : Fin 16) : Nat) = 6 := rfl
    have h8 : ((8 : Fin 16) : Nat) = 8 := rfl
    simp [TypedUuid.new, TypedUuid.variant_type, Uuid.new_v8,
      UuidType.discriminant, UuidType.from_discriminant, Function.update,
      h6, h8, Fin.is_lt]
  · intro s x h
    unfold TypedUuid.from_str at h
    cases hp : Uuid.parse_str s with
    | none => simp [hp] at h
    | some u =>
      simp only [hp] at h
      exact variant_isSome_of_from_uuid_ok n tn u x h
  · intro v x h
    unfold TypedUuid.deserialize at h
    cases hu : Uuid.deserialize v with
    | none => simp [hu] at h
    | some u =>
      simp only [hu] at h
      cases hf : TypedUuid.from_uuid n tn u with
      | error e => simp [hf] at h
      | ok y =>
        simp only [hf] at h
        injection h with h
        subst h
        exact variant_isSome_of_from_uuid_ok n tn u y hf

/-- Witness for C9: the value accepted from the all-zero UUID by a
one-case category set has a succeeding `variant_type()`. -/
theorem variant_type_total_witness :
    (((⟨fun _ => 0⟩ : TypedUuid 1)).variant_type).isSome :=
  (variant_type_total 1 "T").2.1 (fun _ => 0) ⟨fun _ => 0⟩ rfl
